import Mathlib

/-
Verification development for the concurrency core of the backend:
`rate_limiter.py` (the cooperative `RateLimiter` and the thread-based
`SyncRateLimiter`), `reader_writer_lock.py` (`ReaderWriterLock`), and the
`cachetools.func.ttl_cache`-decorated `load` methods of the discover
managers.  Each Python routine is shallowly embedded as an executable Lean
definition; time is modelled as a natural-number clock whose unit is
arbitrary, and an operation invocation is an oracle `Nat -> Except eps a`
giving the outcome of the i-th attempt.
-/

/- ------------------------------------------------------------------ -/
/- Cooperative variant: `RateLimiter.execute` (rate_limiter.py, lines 4-33).

   Python:
     for _ in range(self.retries):
         try:
             async with self:                      -- semaphore.acquire()
                 return await task(*args, **kwargs)
         except Exception as e:
             if _ < self.retries - 1:
                 await asyncio.sleep(self.period)
             else:
                 raise e from None

   For a single caller the semaphore (initial value `rate`) grants the
   permit immediately whenever `rate >= 1`: each attempt's release task
   returns the permit one period after the attempt ends, before or at the
   moment the retry sleep of the same length finishes.  With `rate = 0`
   `asyncio.Semaphore(0).acquire()` suspends and, no release task ever
   existing, the coroutine is suspended forever; the model reports this as
   `suspended`.  When the `for` loop finishes without returning or raising
   (only possible when `retries = 0`) Python returns `None`, modelled as
   `noneResult`. -/

inductive AsyncOutcome (α ε : Type) where
  | ok : α → AsyncOutcome α ε
  | err : ε → AsyncOutcome α ε
  | noneResult : AsyncOutcome α ε
  | suspended : AsyncOutcome α ε
deriving Repr, DecidableEq

structure AsyncResult (α ε : Type) where
  outcome : AsyncOutcome α ε
  invTimes : List Nat
deriving Repr, DecidableEq

/-- Loop body of `RateLimiter.execute`, run over the remaining loop indices
(`List.range retries` initially); `now` is the current clock value and
`invTimes` records the clock at each invocation of `task`. -/
def asyncExecuteGo (rate retries period : Nat) (op : Nat → Except ε α) :
    List Nat → Nat → AsyncResult α ε
  | [], _ => ⟨.noneResult, []⟩
  | i :: rest, now =>
    if rate = 0 then ⟨.suspended, []⟩
    else
      match op i with
      | .ok v => ⟨.ok v, [now]⟩
      | .error e =>
        if i < retries - 1 then
          let r := asyncExecuteGo rate retries period op rest (now + period)
          ⟨r.outcome, now :: r.invTimes⟩
        else ⟨.err e, [now]⟩

/-- `RateLimiter.execute` for a single caller, started at clock 0. -/
def asyncExecute (rate retries period : Nat) (op : Nat → Except ε α) :
    AsyncResult α ε :=
  asyncExecuteGo rate retries period op (List.range retries) 0

/-- Operation that fails on every invocation; the error value records the
attempt index, so the surfaced error identifies which attempt produced it. -/
def alwaysFailOp : Nat → Except Nat Nat := fun i => Except.error i

/-- Operation that fails on the first `k` invocations (error = attempt
index) and succeeds with value `42` from attempt `k` on. -/
def failsThenOkOp (k : Nat) : Nat → Except Nat Nat := fun i =>
  if i < k then Except.error i else Except.ok 42

/- ------------------------------------------------------------------ -/
/- Thread-based variant: `SyncRateLimiter` (rate_limiter.py, lines 35-73).

   State of the limiter between and during `execute` calls:
   `semValue` is the counter of `threading.Semaphore(rate)` (which has no
   upper bound: every `release()` increments it, no matter how many
   permits were acquired), `timer` is the single shared `self.timer` slot
   holding the clock value at which the pending `threading.Timer` will run
   `_release_semaphore`, and `now` is the clock.  `_schedule_release`
   cancels any pending timer and arms a fresh one for `now + period`; in
   the model a pending timer fires when the clock passes its due time
   (which only advances during `threading.Event().wait(period)` or when
   the caller explicitly lets time pass after `execute` returns). -/

structure SyncState where
  semValue : Nat
  timer : Option Nat
  now : Nat
deriving Repr, DecidableEq

/-- Run `_release_semaphore` if the pending timer's due time has been
reached: the semaphore counter is incremented unconditionally. -/
def fireDue (s : SyncState) : SyncState :=
  match s.timer with
  | some t => if t ≤ s.now then { s with semValue := s.semValue + 1, timer := none } else s
  | none => s

/-- `threading.Event().wait(period)`: the calling thread sleeps for one
period; a timer coming due during the sleep fires on the timer thread. -/
def waitPeriod (period : Nat) (s : SyncState) : SyncState :=
  fireDue { s with now := s.now + period }

/-- `_schedule_release`: cancel the pending timer (if any) and arm a fresh
one `period` from now.  Overwriting the single `timer` slot is the
cancellation. -/
def scheduleRelease (period : Nat) (s : SyncState) : SyncState :=
  { s with timer := some (s.now + period) }

/-- Let the clock advance past the pending timer's due time after
`execute` has returned, so the timer (if still armed) fires. -/
def settle (s : SyncState) : SyncState :=
  match s.timer with
  | some t => fireDue { s with now := max s.now t }
  | none => s

/-- `self.semaphore.acquire(blocking=False)`: succeeds exactly when the
counter is positive, decrementing it. -/
def tryAcquire (s : SyncState) : Option SyncState :=
  if 0 < s.semValue then some { s with semValue := s.semValue - 1 } else none

inductive SyncOutcome (α : Type) where
  | ok : α → SyncOutcome α
  | maxRetriesReached : SyncOutcome α
deriving Repr, DecidableEq

structure SyncResult (α : Type) where
  outcome : SyncOutcome α
  state : SyncState
  invTimes : List Nat
deriving Repr, DecidableEq

/-- Loop of `SyncRateLimiter.execute`:

     for _ in range(self.max_retries):
         acquired = self.semaphore.acquire(blocking=False)
         if acquired:
             try:
                 self._schedule_release()
                 return func(*args, **kwargs)
             except Exception as e:
                 print(...)
                 self.semaphore.release()
         else:
             threading.Event().wait(self.period)
     raise Exception("Max retries reached")

   `rem` counts the remaining loop iterations, `invoked` the invocations
   of `func` performed so far (the oracle's index); `invTimes` records the
   clock at each invocation.  Note that the `except` path both leaves the
   just-armed timer pending and releases the semaphore immediately, and
   that it proceeds to the next iteration without any wait. -/
def syncExecuteGo (period : Nat) (op : Nat → Except ε α) :
    Nat → Nat → SyncState → SyncResult α
  | 0, _, s => ⟨.maxRetriesReached, s, []⟩
  | rem + 1, invoked, s =>
    if 0 < s.semValue then
      let s2 := scheduleRelease period { s with semValue := s.semValue - 1 }
      match op invoked with
      | .ok v => ⟨.ok v, s2, [s.now]⟩
      | .error _ =>
        let r := syncExecuteGo period op rem (invoked + 1)
          { s2 with semValue := s2.semValue + 1 }
        ⟨r.outcome, r.state, s.now :: r.invTimes⟩
    else
      syncExecuteGo period op rem invoked (waitPeriod period s)

/-- `SyncRateLimiter.execute` starting from an arbitrary limiter state. -/
def syncExecuteFrom (period maxRetries : Nat) (op : Nat → Except ε α)
    (s : SyncState) : SyncResult α :=
  syncExecuteGo period op maxRetries 0 s

/-- `SyncRateLimiter(rate, period, max_retries).execute(func)` on a fresh
limiter at clock 0. -/
def syncExecute (rate period maxRetries : Nat) (op : Nat → Except ε α) :
    SyncResult α :=
  syncExecuteFrom period maxRetries op ⟨rate, none, 0⟩

/-- Permits outstanding, as the spec counts them: capacity minus the
semaphore counter (negative when the counter has been driven above the
capacity by extra releases). -/
def outstanding (rate : Nat) (s : SyncState) : Int :=
  (rate : Int) - (s.semValue : Int)

/- ------------------------------------------------------------------ -/
/- `ReaderWriterLock` (reader_writer_lock.py).

   `readerCount` is `self._reader_count` (a Python int, so it can go
   negative); `lockHeld` is whether `self._write_lock` is currently held
   (by whomever); `writerActive` is the ghost fact that a `writer_acquire`
   has returned without a matching `writer_release`; `err` records a
   `RuntimeError` from releasing an unheld `threading.Lock`.  Every method
   body runs under `self._read_lock` (or is a single lock call), so each
   is modelled as one atomic transition; a method that would block inside
   a `threading.Lock.acquire()` is modelled as not enabled. -/

structure RWState where
  readerCount : Int
  lockHeld : Bool
  writerActive : Bool
  err : Bool
deriving Repr, DecidableEq

def RWState.init : RWState := ⟨0, false, false, false⟩

inductive RWOp where
  | readerAcquire
  | readerRelease
  | writerAcquire
  | writerRelease
deriving Repr, DecidableEq

/-- Whether the operation can run to completion right now.
`reader_acquire` blocks only when it is about to become the first reader
(`_reader_count` would become 1) while `_write_lock` is held;
`writer_acquire` blocks while `_write_lock` is held.  The release methods
never block. -/
def rwEnabled (s : RWState) : RWOp → Bool
  | .readerAcquire => if s.readerCount + 1 = 1 then !s.lockHeld else true
  | .readerRelease => true
  | .writerAcquire => !s.lockHeld
  | .writerRelease => true

/-- Effect of each method body, straight from the source:
`reader_acquire` increments and takes `_write_lock` exactly when the new
count is 1; `reader_release` decrements and releases `_write_lock` exactly
when the new count is 0 (raising `RuntimeError`, modelled by `err`, if the
lock is not held then); writer methods acquire/release `_write_lock`
directly. -/
def rwApply (s : RWState) : RWOp → RWState
  | .readerAcquire =>
    let c := s.readerCount + 1
    if c = 1 then { s with readerCount := c, lockHeld := true }
    else { s with readerCount := c }
  | .readerRelease =>
    let c := s.readerCount - 1
    if c = 0 then
      if s.lockHeld then { s with readerCount := c, lockHeld := false }
      else { s with readerCount := c, err := true }
    else { s with readerCount := c }
  | .writerAcquire => { s with lockHeld := true, writerActive := true }
  | .writerRelease =>
    if s.lockHeld then { s with lockHeld := false, writerActive := false }
    else { s with err := true }

/-- Execute a sequence of lock operations; `none` when an operation in the
sequence blocks (is not enabled). -/
def rwRun : RWState → List RWOp → Option RWState
  | s, [] => some s
  | s, op :: ops => if rwEnabled s op then rwRun (rwApply s op) ops else none

/-- States reachable under well-bracketed usage: `reader_release` is only
called by a thread whose `reader_acquire` has returned and not yet been
released (so the reader count is positive), and `writer_release` only by
the thread holding the write side. -/
inductive ReachableWB : RWState → Prop where
  | init : ReachableWB RWState.init
  | readerAcquire {s : RWState} : ReachableWB s →
      rwEnabled s .readerAcquire = true → ReachableWB (rwApply s .readerAcquire)
  | readerRelease {s : RWState} : ReachableWB s →
      0 < s.readerCount → ReachableWB (rwApply s .readerRelease)
  | writerAcquire {s : RWState} : ReachableWB s →
      rwEnabled s .writerAcquire = true → ReachableWB (rwApply s .writerAcquire)
  | writerRelease {s : RWState} : ReachableWB s →
      s.writerActive = true → ReachableWB (rwApply s .writerRelease)

/-- Invariant claimed by the spec for the reader/writer coordinator. -/
def rwInv (s : RWState) : Prop :=
  0 ≤ s.readerCount ∧
  (s.lockHeld = true ↔ (0 < s.readerCount ∨ s.writerActive = true)) ∧
  ¬(0 < s.readerCount ∧ s.writerActive = true) ∧
  s.err = false

/- ------------------------------------------------------------------ -/
/- `cachetools.func.ttl_cache(maxsize=16384, ttl=36000)` wrapping
   `DiscoverFunctionsManager.load` / `DiscoverAgentsManager.load`.

   The cachetools function decorator runs, per call:
     1. look the key up in the TTLCache under the wrapper's lock
        (an entry is a hit when the clock is before its expiry time);
     2. on a miss, call the wrapped function OUTSIDE the lock;
     3. store the computed value under the lock (expiry = store time +
        ttl) and return the value this caller computed.
   Concurrent callers with the same key interleave these three phases.
   The model has a single key; the constructed value is the constructor's
   invocation index, so distinct constructions yield distinct values.
   Each caller performs its whole call at its `callTime` (the constructor
   itself is modelled as instantaneous; only the interleaving order of the
   phases matters). -/

structure CacheEntry where
  value : Nat
  expire : Nat
deriving Repr, DecidableEq

structure CacheCaller where
  callTime : Nat
  pc : Nat
  localVal : Nat
  result : Option Nat
deriving Repr, DecidableEq

structure CacheWorld where
  cache : Option CacheEntry
  ctorCount : Nat
  callers : List CacheCaller
deriving Repr, DecidableEq

/-- A fresh caller that will run at clock `t`. -/
def mkCaller (t : Nat) : CacheCaller := ⟨t, 0, 0, none⟩

/-- One phase of the cached wrapper executed by caller `i` (pc 0 =
lookup under the lock, pc 1 = invoke the constructor outside the lock,
pc 2 = store under the lock and return, pc 3 = done). -/
def cacheStep (ttl : Nat) (w : CacheWorld) (i : Nat) : CacheWorld :=
  match w.callers[i]? with
  | none => w
  | some c =>
    if c.pc = 0 then
      match w.cache with
      | some e =>
        if c.callTime < e.expire then
          { w with callers := w.callers.set i { c with pc := 3, result := some e.value } }
        else
          { w with callers := w.callers.set i { c with pc := 1 } }
      | none => { w with callers := w.callers.set i { c with pc := 1 } }
    else if c.pc = 1 then
      { w with ctorCount := w.ctorCount + 1,
               callers := w.callers.set i { c with pc := 2, localVal := w.ctorCount } }
    else if c.pc = 2 then
      { w with cache := some ⟨c.localVal, c.callTime + ttl⟩,
               callers := w.callers.set i { c with pc := 3, result := some c.localVal } }
    else w

/-- Run an interleaving schedule (a list of caller indices). -/
def cacheRun (ttl : Nat) (w : CacheWorld) (sched : List Nat) : CacheWorld :=
  sched.foldl (cacheStep ttl) w

/-- Operation that succeeds with value `7` on every invocation. -/
def alwaysOkOp : Nat → Except Nat Nat := fun _ => Except.ok 7

/- ------------------------------------------------------------------ -/
/- Helper lemmas about the retry loops. -/

theorem map_range_shift (now period m : Nat) :
    now :: (List.range m).map (fun j => (now + period) + j * period) =
      (List.range (m + 1)).map (fun j => now + j * period) := by
  rw [List.range_succ_eq_map, List.map_cons, List.map_map]
  have h0 : now + 0 * period = now := by ring
  rw [h0]
  have hf : ((fun j => now + j * period) ∘ Nat.succ) =
      fun j => (now + period) + j * period := by
    funext j
    simp only [Function.comp, Nat.succ_mul]
    ring
  rw [hf]

/-- An always-failing operation (attempt `j` raises the error `f j`)
drives the cooperative retry loop through every remaining index, sleeping
one period between attempts, and the error of the last index is raised. -/
theorem asyncExecuteGo_alwaysFail (rate retries period : Nat)
    (op : Nat → Except Nat Nat) (f : Nat → Nat) (hr : 1 ≤ rate)
    (hfail : ∀ j, op j = Except.error (f j)) :
    ∀ n i now, i + n = retries → 0 < n →
      asyncExecuteGo rate retries period op (List.range' i n) now =
        ⟨AsyncOutcome.err (f (retries - 1)),
          (List.range n).map (fun j => now + j * period)⟩ := by
  intro n
  induction n with
  | zero =>
    intro i now _ h0
    exact absurd h0 (by decide)
  | succ m ih =>
    intro i now hsum _
    rw [List.range'_succ]
    have hrate : ¬ rate = 0 := by omega
    by_cases hi : i < retries - 1
    · have hm : 0 < m := by omega
      simp only [asyncExecuteGo, hfail i, if_neg hrate, if_pos hi]
      rw [ih (i + 1) (now + period) (by omega) hm,
        ← map_range_shift now period m]
    · have hm : m = 0 := by omega
      subst hm
      have hieq : i = retries - 1 := by omega
      simp only [asyncExecuteGo, hfail i, if_neg hrate, if_neg hi]
      rw [hieq]
      simp [List.range_succ_eq_map]

/-- An operation failing on attempts `0..k-1` and succeeding with `v` at
attempt `k < retries` makes the cooperative loop return the success after
exactly `k + 1` invocations, one period apart. -/
theorem asyncExecuteGo_failsThenOk (rate retries period k v : Nat)
    (op : Nat → Except Nat Nat) (hr : 1 ≤ rate)
    (hfail : ∀ j, j < k → ∃ e, op j = Except.error e)
    (hsucc : op k = Except.ok v) :
    ∀ n i now, i + n = retries → i ≤ k → k < retries →
      asyncExecuteGo rate retries period op (List.range' i n) now =
        ⟨AsyncOutcome.ok v,
          (List.range (k - i + 1)).map (fun j => now + j * period)⟩ := by
  intro n
  induction n with
  | zero =>
    intro i now hsum hik hkr
    exact absurd hkr (by omega)
  | succ m ih =>
    intro i now hsum hik hkr
    rw [List.range'_succ]
    have hrate : ¬ rate = 0 := by omega
    by_cases hick : i < k
    · have hi : i < retries - 1 := by omega
      obtain ⟨e, he⟩ := hfail i hick
      simp only [asyncExecuteGo, he, if_neg hrate, if_pos hi]
      rw [ih (i + 1) (now + period) (by omega) (by omega) hkr]
      have hcount : k - (i + 1) + 1 + 1 = k - i + 1 := by omega
      rw [← hcount, ← map_range_shift now period (k - (i + 1) + 1)]
    · have hieq : i = k := by omega
      subst hieq
      simp only [asyncExecuteGo, hsucc, if_neg hrate]
      simp [List.range_succ_eq_map]

/-- With at least one permit available, an always-failing operation makes
the thread-based loop acquire, fail, release immediately and retry at the
same instant, rearming the shared timer each iteration; the loop performs
one invocation per iteration and raises the generic error at the end. -/
theorem syncExecuteGo_alwaysFail (period : Nat) (op : Nat → Except Nat Nat)
    (hfail : ∀ j, ∃ e, op j = Except.error e) :
    ∀ rem invoked v tm t, 1 ≤ v → 0 < rem →
      syncExecuteGo period op rem invoked ⟨v, tm, t⟩ =
        ⟨SyncOutcome.maxRetriesReached, ⟨v, some (t + period), t⟩,
          List.replicate rem t⟩ := by
  intro rem
  induction rem with
  | zero =>
    intro invoked v tm t _ h0
    exact absurd h0 (by decide)
  | succ m ih =>
    intro invoked v tm t hv _
    have hpos : 0 < v := by omega
    have hvv : v - 1 + 1 = v := by omega
    obtain ⟨e, he⟩ := hfail invoked
    by_cases hm : 0 < m
    · simp only [syncExecuteGo, scheduleRelease, he, if_pos hpos]
      rw [hvv, ih (invoked + 1) v (some (t + period)) t hv hm]
      rw [List.replicate_succ]
    · have hm0 : m = 0 := by omega
      subst hm0
      simp only [syncExecuteGo, scheduleRelease, he, if_pos hpos]
      rw [hvv, List.replicate_succ, List.replicate]

/-- With at least one permit available, an operation failing on attempts
`0..k-1` and succeeding with `v` at attempt `k` makes the thread-based
loop return the success after `k + 1` invocations, all at the same
instant. -/
theorem syncExecuteGo_failsThenOk (period k v : Nat)
    (op : Nat → Except Nat Nat)
    (hfail : ∀ j, j < k → ∃ e, op j = Except.error e)
    (hsucc : op k = Except.ok v) :
    ∀ rem invoked w tm t, 1 ≤ w → invoked ≤ k → k < invoked + rem →
      syncExecuteGo period op rem invoked ⟨w, tm, t⟩ =
        ⟨SyncOutcome.ok v, ⟨w - 1, some (t + period), t⟩,
          List.replicate (k - invoked + 1) t⟩ := by
  intro rem
  induction rem with
  | zero =>
    intro invoked w tm t _ hik hkr
    exact absurd hkr (by omega)
  | succ m ih =>
    intro invoked w tm t hw hik hkr
    have hpos : 0 < w := by omega
    have hvv : w - 1 + 1 = w := by omega
    by_cases hick : invoked < k
    · obtain ⟨e, he⟩ := hfail invoked hick
      simp only [syncExecuteGo, scheduleRelease, he, if_pos hpos]
      rw [hvv, ih (invoked + 1) w (some (t + period)) t hw (by omega) (by omega)]
      have hcount : k - (invoked + 1) + 1 + 1 = k - invoked + 1 := by omega
      rw [← hcount]
      simp [List.replicate_succ]
    · have hieq : invoked = k := by omega
      subst hieq
      simp only [syncExecuteGo, scheduleRelease, hsucc, if_pos hpos]
      simp

/-- Under well-bracketed usage every reachable `ReaderWriterLock` state
satisfies the reader/writer invariant. -/
theorem rwInv_of_reachableWB {s : RWState} (h : ReachableWB s) : rwInv s := by
  induction h with
  | init => simp [rwInv, RWState.init]
  | @readerAcquire s hs hen ih =>
    clear hs
    obtain ⟨c, lk, wa, er⟩ := s
    obtain ⟨h1, h2, h3, h4⟩ := ih
    replace h1 : (0 : Int) ≤ c := h1
    replace h2 : lk = true ↔ ((0 : Int) < c ∨ wa = true) := h2
    replace h3 : ¬((0 : Int) < c ∧ wa = true) := h3
    replace h4 : er = false := h4
    simp only [rwEnabled] at hen
    by_cases hc : c + 1 = 1
    · rw [if_pos hc] at hen
      have hlk : lk = false := by
        cases lk with
        | false => rfl
        | true => exact absurd hen (by decide)
      subst hlk
      have hwa : wa = false := by
        cases wa with
        | false => rfl
        | true =>
          have : (false : Bool) = true := h2.mpr (Or.inr rfl)
          exact absurd this (by decide)
      subst hwa
      have happ : rwApply ⟨c, false, false, er⟩ RWOp.readerAcquire =
          ⟨c + 1, true, false, er⟩ := by
        simp [rwApply, hc]
      rw [happ]
      simp [rwInv, h4]
      omega
    · have hcpos : (0 : Int) < c := by omega
      have hlk : lk = true := h2.mpr (Or.inl hcpos)
      subst hlk
      have hwa : wa = false := by
        cases wa with
        | false => rfl
        | true => exact absurd ⟨hcpos, rfl⟩ h3
      subst hwa
      have happ : rwApply ⟨c, true, false, er⟩ RWOp.readerAcquire =
          ⟨c + 1, true, false, er⟩ := by
        simp [rwApply, hc]
      rw [happ]
      simp [rwInv, h4]
      omega
  | @readerRelease s hs hpos ih =>
    clear hs
    obtain ⟨c, lk, wa, er⟩ := s
    obtain ⟨h1, h2, h3, h4⟩ := ih
    replace h1 : (0 : Int) ≤ c := h1
    replace h2 : lk = true ↔ ((0 : Int) < c ∨ wa = true) := h2
    replace h3 : ¬((0 : Int) < c ∧ wa = true) := h3
    replace h4 : er = false := h4
    replace hpos : (0 : Int) < c := hpos
    have hlk : lk = true := h2.mpr (Or.inl hpos)
    subst hlk
    have hwa : wa = false := by
      cases wa with
      | false => rfl
      | true => exact absurd ⟨hpos, rfl⟩ h3
    subst hwa
    by_cases hc : c - 1 = 0
    · have happ : rwApply ⟨c, true, false, er⟩ RWOp.readerRelease =
          ⟨c - 1, false, false, er⟩ := by
        simp [rwApply, hc]
      rw [happ]
      simp [rwInv, h4, hc]
    · have happ : rwApply ⟨c, true, false, er⟩ RWOp.readerRelease =
          ⟨c - 1, true, false, er⟩ := by
        simp [rwApply, hc]
      rw [happ]
      simp [rwInv, h4]
      omega
  | @writerAcquire s hs hen ih =>
    clear hs
    obtain ⟨c, lk, wa, er⟩ := s
    obtain ⟨h1, h2, h3, h4⟩ := ih
    replace h1 : (0 : Int) ≤ c := h1
    replace h2 : lk = true ↔ ((0 : Int) < c ∨ wa = true) := h2
    replace h4 : er = false := h4
    simp only [rwEnabled] at hen
    have hlk : lk = false := by
      cases lk with
      | false => rfl
      | true => exact absurd hen (by decide)
    subst hlk
    have hnot : ¬((0 : Int) < c ∨ wa = true) := by
      intro hor
      have : (false : Bool) = true := h2.mpr hor
      exact absurd this (by decide)
    have hcle : ¬ (0 : Int) < c := fun hlt => hnot (Or.inl hlt)
    have hc0 : c = 0 := by omega
    subst hc0
    have hwa : wa = false := by
      cases wa with
      | false => rfl
      | true => exact absurd (Or.inr rfl) hnot
    subst hwa
    have happ : rwApply ⟨0, false, false, er⟩ RWOp.writerAcquire =
        ⟨0, true, true, er⟩ := by
      simp [rwApply]
    rw [happ]
    simp [rwInv, h4]
  | @writerRelease s hs hwa ih =>
    clear hs
    obtain ⟨c, lk, wa, er⟩ := s
    obtain ⟨h1, h2, h3, h4⟩ := ih
    replace h1 : (0 : Int) ≤ c := h1
    replace h2 : lk = true ↔ ((0 : Int) < c ∨ wa = true) := h2
    replace h3 : ¬((0 : Int) < c ∧ wa = true) := h3
    replace h4 : er = false := h4
    replace hwa : wa = true := hwa
    subst hwa
    have hlk : lk = true := h2.mpr (Or.inr rfl)
    subst hlk
    have hcle : ¬ (0 : Int) < c := fun hlt => h3 ⟨hlt, rfl⟩
    have hc0 : c = 0 := by omega
    subst hc0
    have happ : rwApply ⟨0, true, true, er⟩ RWOp.writerRelease =
        ⟨0, false, false, er⟩ := by
      simp [rwApply]
    rw [happ]
    simp [rwInv, h4]

/-- With zero capacity the thread-based loop never acquires: it sleeps one
period per iteration, performs no invocation, and raises the generic
error. -/
theorem syncExecuteGo_zeroCapacity (period : Nat) (op : Nat → Except Nat Nat) :
    ∀ mr invoked t, syncExecuteGo period op mr invoked ⟨0, none, t⟩ =
      ⟨SyncOutcome.maxRetriesReached, ⟨0, none, t + mr * period⟩, []⟩ := by
  intro mr
  induction mr with
  | zero =>
    intro invoked t
    simp [syncExecuteGo]
  | succ m ih =>
    intro invoked t
    have h0 : ¬ 0 < (0 : Nat) := by decide
    simp only [syncExecuteGo, if_neg h0, waitPeriod, fireDue]
    rw [ih invoked (t + period)]
    have : t + period + m * period = t + (m + 1) * period := by ring
    rw [this]

/- ------------------------------------------------------------------ -/
/- Claim theorems. -/

/-- Claim C1, counterexample.  With the default budget `retries = 3` an
always-failing operation is invoked exactly 3 times, not `3 + 1`, and the
thread-based variant surfaces the generic max-retries error rather than
the final attempt's failure. -/
theorem c1_counterexample :
    (asyncExecute 1 3 5 alwaysFailOp).invTimes.length = 3 ∧
    ¬ (asyncExecute 1 3 5 alwaysFailOp).invTimes.length = 3 + 1 ∧
    (syncExecute 1 5 3 alwaysFailOp).outcome = SyncOutcome.maxRetriesReached ∧
    (syncExecute 1 5 3 alwaysFailOp).invTimes.length = 3 := by
  decide

/-- Claim C1, amended.  On an operation that fails on every invocation,
both variants invoke the operation exactly `max_retries` times (not
`max_retries + 1`); the cooperative variant then raises the failure
produced by the final attempt, while the thread-based variant raises the
generic max-retries error instead of the final attempt's failure. -/
theorem c1_retries_exhausted (rate retries period : Nat)
    (op : Nat → Except Nat Nat) (f : Nat → Nat)
    (hr : 1 ≤ rate) (hn : 1 ≤ retries)
    (hfail : ∀ j, op j = Except.error (f j)) :
    (asyncExecute rate retries period op).outcome =
      AsyncOutcome.err (f (retries - 1)) ∧
    (asyncExecute rate retries period op).invTimes.length = retries ∧
    (syncExecute rate period retries op).outcome =
      SyncOutcome.maxRetriesReached ∧
    (syncExecute rate period retries op).invTimes.length = retries := by
  have hasync := asyncExecuteGo_alwaysFail rate retries period op f hr hfail
    retries 0 0 (by omega) (by omega)
  rw [← List.range_eq_range'] at hasync
  have hsync := syncExecuteGo_alwaysFail period op
    (fun j => ⟨f j, hfail j⟩) retries 0 rate none 0 hr (by omega)
  refine ⟨?_, ?_, ?_, ?_⟩
  · rw [asyncExecute, hasync]
  · rw [asyncExecute, hasync]
    simp
  · rw [syncExecute, syncExecuteFrom, hsync]
  · rw [syncExecute, syncExecuteFrom, hsync]
    simp

/-- Claim C1, witness for the amended theorem at `rate = 1`,
`retries = 3`, `period = 5`. -/
theorem c1_retries_exhausted_witness :
    (asyncExecute 1 3 5 alwaysFailOp).outcome = AsyncOutcome.err 2 ∧
    (asyncExecute 1 3 5 alwaysFailOp).invTimes.length = 3 ∧
    (syncExecute 1 5 3 alwaysFailOp).outcome = SyncOutcome.maxRetriesReached ∧
    (syncExecute 1 5 3 alwaysFailOp).invTimes.length = 3 :=
  c1_retries_exhausted 1 3 5 alwaysFailOp (fun j => j)
    (by decide) (by decide) (fun j => rfl)

/-- Claim C5.  An operation failing `k < max_retries` times and then
succeeding makes `execute` return the success result after exactly `k + 1`
invocations, in both variants, without consuming the remaining budget. -/
theorem c5_fail_then_success (rate retries period k v : Nat)
    (op : Nat → Except Nat Nat) (hr : 1 ≤ rate) (hk : k < retries)
    (hfail : ∀ j, j < k → ∃ e, op j = Except.error e)
    (hsucc : op k = Except.ok v) :
    (asyncExecute rate retries period op).outcome = AsyncOutcome.ok v ∧
    (asyncExecute rate retries period op).invTimes.length = k + 1 ∧
    (syncExecute rate period retries op).outcome = SyncOutcome.ok v ∧
    (syncExecute rate period retries op).invTimes.length = k + 1 := by
  have hasync := asyncExecuteGo_failsThenOk rate retries period k v op hr
    hfail hsucc retries 0 0 (by omega) (by omega) hk
  rw [← List.range_eq_range'] at hasync
  have hsync := syncExecuteGo_failsThenOk period k v op hfail hsucc
    retries 0 rate none 0 hr (by omega) (by omega)
  refine ⟨?_, ?_, ?_, ?_⟩
  · rw [asyncExecute, hasync]
  · rw [asyncExecute, hasync]
    simp
  · rw [syncExecute, syncExecuteFrom, hsync]
  · rw [syncExecute, syncExecuteFrom, hsync]
    simp

/-- Claim C5, witness at `k = 1`, `retries = 3`. -/
theorem c5_fail_then_success_witness :
    (asyncExecute 1 3 5 (failsThenOkOp 1)).outcome = AsyncOutcome.ok 42 ∧
    (asyncExecute 1 3 5 (failsThenOkOp 1)).invTimes.length = 1 + 1 ∧
    (syncExecute 1 5 3 (failsThenOkOp 1)).outcome = SyncOutcome.ok 42 ∧
    (syncExecute 1 5 3 (failsThenOkOp 1)).invTimes.length = 1 + 1 :=
  c5_fail_then_success 1 3 5 1 42 (failsThenOkOp 1) (by decide) (by decide)
    (fun j hj => ⟨j, by simp [failsThenOkOp, hj]⟩) rfl

/-- Claim C9.  The cooperative variant with `retries = 0` never enters the
loop body: `execute` performs no invocation, raises nothing, and falls off
the loop returning Python `None`. -/
theorem c9_zero_retries_returns_none (rate period : Nat)
    (op : Nat → Except Nat Nat) :
    asyncExecute rate 0 period op = ⟨AsyncOutcome.noneResult, []⟩ := rfl

/-- Claim C7, counterexample.  With `period = 5`, after the first failed
(non-final) attempt the thread-based variant begins the second attempt at
the same clock value 0: it does not wait a period between failed
attempts. -/
theorem c7_counterexample :
    (syncExecute 1 5 2 alwaysFailOp).invTimes = [0, 0] ∧
    ¬ (syncExecute 1 5 2 alwaysFailOp).invTimes = [0, 5] := by
  decide

/-- Claim C7, amended.  After a non-final failed attempt the cooperative
variant waits `period` before the next attempt (consecutive invocation
times are exactly `period` apart); the thread-based variant retries
immediately after an operation failure (all its invocations happen at the
same clock value), waiting only when a permit cannot be acquired. -/
theorem c7_inter_attempt_wait (rate retries period : Nat)
    (op : Nat → Except Nat Nat) (f : Nat → Nat)
    (hr : 1 ≤ rate) (hn : 1 ≤ retries)
    (hfail : ∀ j, op j = Except.error (f j)) :
    (asyncExecute rate retries period op).invTimes =
      (List.range retries).map (fun j => j * period) ∧
    (syncExecute rate period retries op).invTimes =
      List.replicate retries 0 := by
  have hasync := asyncExecuteGo_alwaysFail rate retries period op f hr hfail
    retries 0 0 (by omega) (by omega)
  rw [← List.range_eq_range'] at hasync
  have hsync := syncExecuteGo_alwaysFail period op
    (fun j => ⟨f j, hfail j⟩) retries 0 rate none 0 hr (by omega)
  constructor
  · rw [asyncExecute, hasync]
    simp
  · rw [syncExecute, syncExecuteFrom, hsync]

/-- Claim C7, witness for the amended theorem at `rate = 1`,
`retries = 3`, `period = 5`. -/
theorem c7_inter_attempt_wait_witness :
    (asyncExecute 1 3 5 alwaysFailOp).invTimes =
      (List.range 3).map (fun j => j * 5) ∧
    (syncExecute 1 5 3 alwaysFailOp).invTimes = List.replicate 3 0 :=
  c7_inter_attempt_wait 1 3 5 alwaysFailOp (fun j => j)
    (by decide) (by decide) (fun j => rfl)

/-- Claim C6, counterexample.  With capacity 0 the cooperative variant
does not raise a configuration error: its acquire suspends forever (the
outcome is `suspended`, neither a success nor an error, with no
invocation), and the thread-based variant blocks for
`max_retries * period = 15` clock units before raising. -/
theorem c6_counterexample :
    (asyncExecute 0 3 5 alwaysFailOp).outcome = AsyncOutcome.suspended ∧
    (asyncExecute 0 3 5 alwaysFailOp).invTimes = [] ∧
    (syncExecute 0 5 3 alwaysFailOp).state.now = 15 := by
  decide

/-- Claim C6, amended.  With capacity 0 acquisition never succeeds: the
cooperative variant suspends forever without raising or invoking the
operation, and the thread-based variant performs no invocation, sleeps one
period per attempt, and raises the generic max-retries error after
`max_retries` attempts. -/
theorem c6_zero_capacity (retries maxR period : Nat)
    (op : Nat → Except Nat Nat) (hn : 1 ≤ retries) :
    asyncExecute 0 retries period op = ⟨AsyncOutcome.suspended, []⟩ ∧
    syncExecute 0 period maxR op =
      ⟨SyncOutcome.maxRetriesReached, ⟨0, none, maxR * period⟩, []⟩ := by
  constructor
  · obtain ⟨n, rfl⟩ : ∃ n, retries = n + 1 := ⟨retries - 1, by omega⟩
    rw [asyncExecute, List.range_eq_range', List.range'_succ]
    simp [asyncExecuteGo]
  · have h := syncExecuteGo_zeroCapacity period op maxR 0 0
    rw [syncExecute, syncExecuteFrom, h]
    simp

/-- Claim C6, witness for the amended theorem at `retries = 3`,
`max_retries = 3`, `period = 5`. -/
theorem c6_zero_capacity_witness :
    asyncExecute 0 3 5 alwaysFailOp = ⟨AsyncOutcome.suspended, []⟩ ∧
    syncExecute 0 5 3 alwaysFailOp =
      ⟨SyncOutcome.maxRetriesReached, ⟨0, none, 3 * 5⟩, []⟩ :=
  c6_zero_capacity 3 3 5 alwaysFailOp (by decide)

/-- Claim C2, code bug.  `SyncRateLimiter(rate=1, period=5,
max_retries=1)` on an always-failing operation: the except path releases
the permit immediately while the timer armed by `_schedule_release` stays
pending, so when the timer fires the same acquisition is released a second
time.  The semaphore counter reaches 2 with capacity 1 (outstanding = -1),
after which two simultaneous non-blocking acquires both succeed — two
permits outstanding with `rate = 1`. -/
theorem c2_sync_double_release :
    (syncExecute 1 5 1 alwaysFailOp).outcome = SyncOutcome.maxRetriesReached ∧
    (syncExecute 1 5 1 alwaysFailOp).state = ⟨1, some 5, 0⟩ ∧
    settle (syncExecute 1 5 1 alwaysFailOp).state = ⟨2, none, 5⟩ ∧
    outstanding 1 (settle (syncExecute 1 5 1 alwaysFailOp).state) = -1 ∧
    (Option.bind (tryAcquire (settle (syncExecute 1 5 1 alwaysFailOp).state))
      tryAcquire).isSome = true := by
  decide

/-- Claim C3, code bug.  Two successful `execute` calls within one period
on `SyncRateLimiter(rate=2, period=5)`: the second `_schedule_release`
cancels the first permit's pending timer, so only one of the two releases
ever runs.  After all pending timers fire the semaphore counter is 1, not
2 — the first permit's release is lost and a capacity slot leaks
permanently. -/
theorem c3_sync_release_lost :
    (syncExecute 2 5 3 alwaysOkOp).outcome = SyncOutcome.ok 7 ∧
    (syncExecuteFrom 5 3 alwaysOkOp
      (syncExecute 2 5 3 alwaysOkOp).state).outcome = SyncOutcome.ok 7 ∧
    settle (syncExecuteFrom 5 3 alwaysOkOp
      (syncExecute 2 5 3 alwaysOkOp).state).state = ⟨1, none, 5⟩ ∧
    ¬ (settle (syncExecuteFrom 5 3 alwaysOkOp
      (syncExecute 2 5 3 alwaysOkOp).state).state).semValue = 2 := by
  decide

/-- Claim C4.  In every state reachable by well-bracketed
acquire/release pairs, the exclusive lock is held exactly when readers are
active or a writer is active, readers and a writer are never both active,
no release error occurs, and moreover while readers are active a
`writer_acquire` cannot proceed but further `reader_acquire` calls can. -/
theorem c4_reader_writer_invariant (s : RWState) (hs : ReachableWB s) :
    rwInv s ∧
    (0 < s.readerCount → rwEnabled s RWOp.writerAcquire = false) ∧
    (0 < s.readerCount → rwEnabled s RWOp.readerAcquire = true) := by
  have hinv := rwInv_of_reachableWB hs
  obtain ⟨h1, h2, h3, h4⟩ := hinv
  refine ⟨⟨h1, h2, h3, h4⟩, ?_, ?_⟩
  · intro hpos
    have hlk : s.lockHeld = true := h2.mpr (Or.inl hpos)
    simp [rwEnabled, hlk]
  · intro hpos
    have hne : ¬ (s.readerCount + 1 = 1) := by omega
    simp [rwEnabled, hne]

/-- Claim C4, witness at the state reached by one `reader_acquire` from
the initial state. -/
theorem c4_reader_writer_invariant_witness :
    rwInv (rwApply RWState.init RWOp.readerAcquire) ∧
    (0 < (rwApply RWState.init RWOp.readerAcquire).readerCount →
      rwEnabled (rwApply RWState.init RWOp.readerAcquire)
        RWOp.writerAcquire = false) ∧
    (0 < (rwApply RWState.init RWOp.readerAcquire).readerCount →
      rwEnabled (rwApply RWState.init RWOp.readerAcquire)
        RWOp.readerAcquire = true) :=
  c4_reader_writer_invariant _
    (ReachableWB.readerAcquire ReachableWB.init (by decide))

/-- Claim C10.  Calling `reader_release` on a fresh lock silently drives
`_reader_count` to -1 (no precondition violation is raised); the next
`reader_acquire` brings the count back to 0 without touching the exclusive
lock, and a `writer_acquire` then succeeds while that reader is still
active — a reader and a writer are active at the same time. -/
theorem c10_unmatched_reader_release :
    rwRun RWState.init [RWOp.readerRelease] =
      some ⟨-1, false, false, false⟩ ∧
    rwRun RWState.init [RWOp.readerRelease, RWOp.readerAcquire] =
      some ⟨0, false, false, false⟩ ∧
    rwRun RWState.init
        [RWOp.readerRelease, RWOp.readerAcquire, RWOp.writerAcquire] =
      some ⟨0, true, true, false⟩ := by
  decide

/-- Claim C8, counterexample.  Two concurrent callers that both miss (the
second looks up before the first stores) each invoke the constructor and
return their own value: the constructor runs twice and the callers observe
two distinct values. -/
theorem c8_counterexample :
    (cacheRun 100 ⟨none, 0, [mkCaller 0, mkCaller 0]⟩
      [0, 1, 0, 1, 0, 1]).ctorCount = 2 ∧
    ¬ (cacheRun 100 ⟨none, 0, [mkCaller 0, mkCaller 0]⟩
      [0, 1, 0, 1, 0, 1]).ctorCount = 1 ∧
    (cacheRun 100 ⟨none, 0, [mkCaller 0, mkCaller 0]⟩
      [0, 1, 0, 1, 0, 1]).callers.map (fun c => c.result) =
      [some 0, some 1] := by
  decide

/-- Claim C8, amended.  The `ttl_cache`-wrapped `load` memoizes per key
but is not single-flight: a sequential second call within the TTL observes
the cached value without invoking the constructor, a call after the TTL
has elapsed invokes the constructor again, and concurrent misses may each
invoke the constructor and observe distinct values. -/
theorem c8_ttl_cache_behavior (ttl t0 t1 t2 tc : Nat)
    (h1 : t1 < t0 + ttl) (h2 : t0 + ttl ≤ t2) :
    (cacheRun ttl ⟨none, 0, [mkCaller t0, mkCaller t1, mkCaller t2]⟩
        [0, 0, 0, 1, 2, 2, 2]).ctorCount = 2 ∧
    (cacheRun ttl ⟨none, 0, [mkCaller t0, mkCaller t1, mkCaller t2]⟩
        [0, 0, 0, 1, 2, 2, 2]).callers.map (fun c => c.result) =
      [some 0, some 0, some 1] ∧
    (cacheRun ttl ⟨none, 0, [mkCaller tc, mkCaller tc]⟩
        [0, 1, 0, 1, 0, 1]).ctorCount = 2 ∧
    (cacheRun ttl ⟨none, 0, [mkCaller tc, mkCaller tc]⟩
        [0, 1, 0, 1, 0, 1]).callers.map (fun c => c.result) =
      [some 0, some 1] := by
  have h2' : ¬ (t2 < t0 + ttl) := by omega
  refine ⟨?_, ?_, ?_, ?_⟩ <;>
    simp [cacheRun, cacheStep, mkCaller, h1, h2']

/-- Claim C8, witness for the amended theorem at `ttl = 100`,
call times 0, 50, 150 and concurrent calls at time 7. -/
theorem c8_ttl_cache_behavior_witness :
    (cacheRun 100 ⟨none, 0, [mkCaller 0, mkCaller 50, mkCaller 150]⟩
        [0, 0, 0, 1, 2, 2, 2]).ctorCount = 2 ∧
    (cacheRun 100 ⟨none, 0, [mkCaller 0, mkCaller 50, mkCaller 150]⟩
        [0, 0, 0, 1, 2, 2, 2]).callers.map (fun c => c.result) =
      [some 0, some 0, some 1] ∧
    (cacheRun 100 ⟨none, 0, [mkCaller 7, mkCaller 7]⟩
        [0, 1, 0, 1, 0, 1]).ctorCount = 2 ∧
    (cacheRun 100 ⟨none, 0, [mkCaller 7, mkCaller 7]⟩
        [0, 1, 0, 1, 0, 1]).callers.map (fun c => c.result) =
      [some 0, some 1] :=
  c8_ttl_cache_behavior 100 0 50 150 7 (by decide) (by decide)
